import Mathlib

set_option maxRecDepth 8192

/-!
# A verification model of the SJPU vector store (src/sjpu_system.py)

This file gives a shallow embedding of the vector-store component of
SJPUVectorSystem: `_initialize_database`, `validate_vector`, `add_to_db`,
`query_db` and `get_system_stats`, together with theorems about the store
invariants (capacity / eviction, metadata consistency, query clamping,
exact fallback search and the construction-time fallback logic).

Modelling conventions:
* Array entries are modelled by `FVal`: an exact rational (IEEE floats
  idealized as exact rationals, so the float32 cast `astype(np.float32)`
  is the identity) or one of the non-finite values NaN / +Inf / -Inf.
* `warnings.warn` is a pure side channel: functions that may warn return
  the list of warnings they emit.
* A raised Python exception is an `Except` error value.  Because a raised
  exception leaves the Python object with whatever mutations already
  happened, errors of the mutating operation `add_to_db` carry the
  partially-mutated state.
* The FAISS index (third-party code, not under src/) is modelled from the
  spec's stated contract for the indexed backend: it "requires an upfront
  training/calibration pass on representative data before it can accept
  insertions"; its search is idealized as exact k-nearest-neighbour over
  the index contents, returning squared L2 distances.
* `np.linalg.norm`-based distances in the fallback branch are modelled by
  their squares (`rowDist2`), which keeps values rational; the square
  root is strictly monotone on nonnegative values, so sort order,
  comparisons and zero-ness of distances are unaffected.
-/

/-- A float value: a finite exact rational, or one of NaN, +Inf, -Inf. -/
inductive FVal where
  | val (q : ℚ)
  | nan
  | inf
  | ninf
deriving DecidableEq, Repr

/-- Largest finite IEEE double, `(2^53 - 1) * 2^971`; `np.nan_to_num`
replaces +Inf by this value (and -Inf by its negation).  Stated over ℕ
first so that it evaluates by kernel reduction. -/
def FLOAT64_MAX : ℚ := ((9007199254740991 * 2 ^ 971 : ℕ) : ℚ)

/-- `np.isfinite` on one entry. -/
def isfinite : FVal → Bool
  | FVal.val _ => true
  | _ => false

/-- `np.nan_to_num` on one entry: NaN becomes 0, infinities become the
largest-magnitude finite doubles (not 0). -/
def nan_to_num : FVal → FVal
  | FVal.val q => FVal.val q
  | FVal.nan => FVal.val 0
  | FVal.inf => FVal.val FLOAT64_MAX
  | FVal.ninf => FVal.val (-FLOAT64_MAX)

/-- The rational reading of an entry (used in arithmetic on sanitized,
hence finite, data; the values for non-finite entries follow
`np.nan_to_num`). -/
def ratOf : FVal → ℚ
  | FVal.val q => q
  | FVal.nan => 0
  | FVal.inf => FLOAT64_MAX
  | FVal.ninf => -FLOAT64_MAX

/-- The warnings the store can emit via `warnings.warn`. -/
inductive Warning where
  | resized (oldDim newDim : ℕ)
  | nonfinite
  | faissInitError
  | faissUnavailable
deriving DecidableEq, Repr

/-- The length-adjustment step of `validate_vector` (source lines 73-79):
truncate when longer than `dim`, zero-pad when shorter. -/
def resize_vec (dim : ℕ) (vec : List FVal) : List FVal :=
  if dim < vec.length then vec.take dim
  else vec ++ List.replicate (dim - vec.length) (FVal.val 0)

/-- `validate_vector` (source lines 70-83): resize to `dim` with a warning
when the length differs, then replace non-finite entries via
`np.nan_to_num` with a warning when any entry is non-finite. -/
def validate_vector (dim : ℕ) (vec : List FVal) : List FVal × List Warning :=
  let r := if vec.length ≠ dim then
      (resize_vec dim vec, [Warning.resized vec.length dim])
    else (vec, [])
  if r.1.all isfinite then r else (r.1.map nan_to_num, r.2 ++ [Warning.nonfinite])

/-- The FAISS `IndexIVFFlat` object, modelled from the spec: a training
flag (the spec's indexed backend "requires an upfront training/calibration
pass ... before it can accept insertions") and the list of stored rows. -/
structure FaissIndex where
  trained : Bool
  entries : List (List FVal)
deriving DecidableEq, Repr

/-- `index.ntotal`: number of stored rows. -/
def FaissIndex.ntotal (ix : FaissIndex) : ℕ := ix.entries.length

/-- `index.add`: modelled from the spec, adding to an `IndexIVFFlat` that
has not been trained raises. -/
def FaissIndex.add (ix : FaissIndex) (vs : List (List FVal)) : Except String FaissIndex :=
  if ix.trained then Except.ok { ix with entries := ix.entries ++ vs }
  else Except.error "faiss: index must be trained before adding vectors"

/-- Squared Euclidean distance between a stored row and a rational query
vector (the source computes `np.linalg.norm(row - q)`; we keep the
square, see the header note). -/
def rowDist2 (row : List FVal) (q : List ℚ) : ℚ :=
  ((row.zip q).map (fun p => (ratOf p.1 - p.2) ^ 2)).sum

/-- Comparison of positions by their distance value, ties broken by
position, giving a total order used to model `np.argsort`. -/
def idxLe (ds : List ℚ) (i j : ℕ) : Prop :=
  ds.getD i 0 < ds.getD j 0 ∨ (ds.getD i 0 = ds.getD j 0 ∧ i ≤ j)

instance (ds : List ℚ) : DecidableRel (idxLe ds) := fun i j => by
  unfold idxLe; infer_instance

instance (ds : List ℚ) : IsTotal ℕ (idxLe ds) where
  total i j := by
    unfold idxLe
    rcases lt_trichotomy (ds.getD i 0) (ds.getD j 0) with h | h | h
    · exact Or.inl (Or.inl h)
    · rcases Nat.le_total i j with hij | hij
      · exact Or.inl (Or.inr ⟨h, hij⟩)
      · exact Or.inr (Or.inr ⟨h.symm, hij⟩)
    · exact Or.inr (Or.inl h)

instance (ds : List ℚ) : IsTrans ℕ (idxLe ds) where
  trans i j l hij hjl := by
    unfold idxLe at *
    rcases hij with h1 | ⟨h1, h1n⟩
    · rcases hjl with h2 | ⟨h2, _⟩
      · exact Or.inl (h1.trans h2)
      · exact Or.inl (h2 ▸ h1)
    · rcases hjl with h2 | ⟨h2, h2n⟩
      · exact Or.inl (h1 ▸ h2)
      · exact Or.inr ⟨h1.trans h2, h1n.trans h2n⟩

/-- `np.argsort(ds)`: the positions `0, …, ds.length - 1` sorted by their
distance value (stable on ties). -/
def sortIdx (ds : List ℚ) : List ℕ :=
  List.insertionSort (idxLe ds) (List.range ds.length)

/-- Python slicing `l[:m]` for an integer bound `m` (a negative bound
counts from the end, as in the source's `[:min(k, len(dists))]`). -/
def pySlice (m : ℤ) (l : List α) : List α :=
  if 0 ≤ m then l.take m.toNat else l.take ((l.length : ℤ) + m).toNat

/-- `index.search(q, k)`: idealized exact k-NN over the index contents,
returning positions and squared distances, nearest first (the source's
index is approximate; result count and ordering follow its contract). -/
def FaissIndex.search (ix : FaissIndex) (q : List ℚ) (k : ℤ) :
    List ℕ × List ℚ :=
  let ds := ix.entries.map (fun row => rowDist2 row q)
  let idx := (sortIdx ds).take k.toNat
  (idx, idx.map (fun i => ds.getD i 0))

/-- The mutable state of `SJPUVectorSystem` that the store operations
touch.  `knowledge_db` is a single Python attribute holding either the
FAISS index or the numpy fallback array; it is split here into
`knowledge_db_faiss` (used when `use_faiss`) and `knowledge_db` (the
fallback rows).  `add_times` / `query_times` count the entries of
`benchmark_results`. -/
structure SJPUState (μ : Type) where
  dim : ℕ
  max_db_size : ℕ
  use_faiss : Bool
  knowledge_db_faiss : FaissIndex
  knowledge_db : List (List FVal)
  vectors : List (List FVal)
  metadata : List μ
  add_times : ℕ
  query_times : ℕ
deriving DecidableEq, Repr

/-- `list.pop(0)`: raises on an empty list, else returns head and tail. -/
def pop0 (l : List α) : Except String (α × List α) :=
  match l with
  | [] => Except.error "pop from empty list"
  | a :: t => Except.ok (a, t)

/-- Abstract failure modes of the external FAISS library during
construction: whether the import succeeded, whether building the index
objects raises, and whether the training call raises. -/
structure InitEnv where
  faiss_available : Bool
  index_build_raises : Bool
  train_raises : Bool
deriving DecidableEq, Repr

/-- `_initialize_database` (source lines 37-68, plus `__init__`):
metadata/vectors start empty and `use_faiss` is false; when FAISS is
available the index is built inside a try/except whose handler warns and
falls back to the numpy array; the training call (lines 64-68) runs
after that try/except, so its failure propagates. -/
def init_database (μ : Type) (env : InitEnv) (dim max_db_size : ℕ) :
    Except String (SJPUState μ × List Warning) :=
  let base : SJPUState μ :=
    { dim := dim, max_db_size := max_db_size, use_faiss := false,
      knowledge_db_faiss := { trained := false, entries := [] },
      knowledge_db := [], vectors := [], metadata := [],
      add_times := 0, query_times := 0 }
  if env.faiss_available then
    if env.index_build_raises then
      Except.ok (base, [Warning.faissInitError])
    else
      if env.train_raises then Except.error "faiss train raised"
      else Except.ok
        ({ base with
            use_faiss := true,
            knowledge_db_faiss := { trained := true, entries := [] } }, [])
  else Except.ok (base, [Warning.faissUnavailable])

/-- `add_to_db` (source lines 201-223).  FAISS branch: on capacity, pop
the oldest metadata and raw vector, replace the index by a fresh
(untrained) one, bulk re-add the retained raw vectors if any, then add
the new vector; fallback branch: on capacity drop the first row and pop
the oldest metadata, then append the new row.  Errors carry the
partially mutated state (mutations performed before the raise). -/
def add_to_db (s : SJPUState μ) (vec : List FVal) (meta : μ) :
    Except (SJPUState μ) (SJPUState μ) :=
  let v := (validate_vector s.dim vec).1
  if s.use_faiss then
    if s.max_db_size ≤ s.knowledge_db_faiss.ntotal then
      match pop0 s.metadata with
      | Except.error _ => Except.error s
      | Except.ok (_, metadata1) =>
        match pop0 s.vectors with
        | Except.error _ => Except.error { s with metadata := metadata1 }
        | Except.ok (_, vectors1) =>
          let ix0 : FaissIndex := { trained := false, entries := [] }
          match (if vectors1.isEmpty then Except.ok ix0 else ix0.add vectors1 : Except String FaissIndex) with
          | Except.error _ =>
            Except.error
              { s with
                  metadata := metadata1, vectors := vectors1,
                  knowledge_db_faiss := ix0 }
          | Except.ok ix1 =>
            match ix1.add [v] with
            | Except.error _ =>
              Except.error
                { s with
                    metadata := metadata1, vectors := vectors1,
                    knowledge_db_faiss := ix1 }
            | Except.ok ix2 =>
              Except.ok
                { s with
                    metadata := metadata1 ++ [meta],
                    vectors := vectors1 ++ [v], knowledge_db_faiss := ix2,
                    add_times := s.add_times + 1 }
    else
      match s.knowledge_db_faiss.add [v] with
      | Except.error _ => Except.error s
      | Except.ok ix2 =>
        Except.ok
          { s with
              metadata := s.metadata ++ [meta],
              vectors := s.vectors ++ [v], knowledge_db_faiss := ix2,
              add_times := s.add_times + 1 }
  else
    if s.max_db_size ≤ s.knowledge_db.length then
      let db1 := s.knowledge_db.tail
      match pop0 s.metadata with
      | Except.error _ => Except.error { s with knowledge_db := db1 }
      | Except.ok (_, metadata1) =>
        let db2 := if db1.length * s.dim ≠ 0 then db1 ++ [v] else [v]
        Except.ok
          { s with
              knowledge_db := db2, metadata := metadata1 ++ [meta],
              add_times := s.add_times + 1 }
    else
      let db2 := if s.knowledge_db.length * s.dim ≠ 0 then s.knowledge_db ++ [v] else [v]
      Except.ok
        { s with
            knowledge_db := db2, metadata := s.metadata ++ [meta],
            add_times := s.add_times + 1 }

/-- `query_db` (source lines 225-242).  Both branches return before the
query-time benchmark recording statements (lines 241-242), which are
therefore dead code: the state comes back unchanged. -/
def query_db [Inhabited μ] (s : SJPUState μ) (query_vec : List FVal) (k : ℤ) :
    (List μ × List ℚ) × SJPUState μ :=
  let q := ((validate_vector s.dim query_vec).1).map ratOf
  if s.use_faiss then
    if s.knowledge_db_faiss.ntotal = 0 then (([], []), s)
    else
      let k2 := min k (s.knowledge_db_faiss.ntotal : ℤ)
      let r := s.knowledge_db_faiss.search q k2
      ((r.1.map (fun i => s.metadata.getD i default), r.2), s)
  else
    if s.knowledge_db.length = 0 then (([], []), s)
    else
      let ds := s.knowledge_db.map (fun row => rowDist2 row q)
      let idx := pySlice (min k (ds.length : ℤ)) (sortIdx ds)
      ((idx.map (fun i => s.metadata.getD i default),
        idx.map (fun i => ds.getD i 0)), s)

/-- The record returned by `get_system_stats`. -/
structure Stats where
  dim : ℕ
  db_size : ℕ
  max_db_size : ℕ
  using_faiss : Bool
  metadata_count : ℕ
deriving DecidableEq, Repr

/-- `get_system_stats` (source lines 244-246). -/
def get_system_stats (s : SJPUState μ) : Stats :=
  { dim := s.dim,
    db_size := if s.use_faiss then s.knowledge_db_faiss.ntotal else s.knowledge_db.length,
    max_db_size := s.max_db_size,
    using_faiss := s.use_faiss,
    metadata_count := s.metadata.length }

/-! ## Basic lemmas about sanitization -/

theorem resize_vec_eq_self (dim : ℕ) (vec : List FVal) (h : vec.length = dim) :
    resize_vec dim vec = vec := by
  simp [resize_vec, h]

theorem resize_vec_length (dim : ℕ) (vec : List FVal) :
    (resize_vec dim vec).length = dim := by
  unfold resize_vec
  split
  · simp; omega
  · simp; omega

theorem nan_to_num_finite (x : FVal) : isfinite (nan_to_num x) = true := by
  cases x <;> rfl

theorem nan_to_num_of_finite (x : FVal) (h : isfinite x = true) : nan_to_num x = x := by
  cases x <;> simp_all [isfinite, nan_to_num]

theorem map_nan_to_num_of_all_finite (l : List FVal) (h : l.all isfinite = true) :
    l.map nan_to_num = l := by
  induction l with
  | nil => rfl
  | cons a t ih =>
    simp only [List.all_cons, Bool.and_eq_true] at h
    simp [nan_to_num_of_finite a h.1, ih h.2]

theorem validate_vector_id (dim : ℕ) (vec : List FVal) (h : vec.length = dim)
    (hf : vec.all isfinite = true) : validate_vector dim vec = (vec, []) := by
  simp [validate_vector, h, hf]

theorem validate_vector_eq_map (dim : ℕ) (vec : List FVal) :
    (validate_vector dim vec).1 = (resize_vec dim vec).map nan_to_num := by
  by_cases h : vec.length = dim
  · by_cases hfin : vec.all isfinite = true
    · rw [validate_vector_id dim vec h hfin, resize_vec_eq_self dim vec h,
        map_nan_to_num_of_all_finite vec hfin]
    · simp only [validate_vector, h, ne_eq, not_true_eq_false, if_false,
        resize_vec_eq_self dim vec h]
      simp [hfin]
  · by_cases hfin : (resize_vec dim vec).all isfinite = true
    · simp only [validate_vector, ne_eq, h, not_false_eq_true, if_true]
      simp [hfin, map_nan_to_num_of_all_finite _ hfin]
    · simp only [validate_vector, ne_eq, h, not_false_eq_true, if_true]
      simp [hfin]

theorem validate_vector_length (dim : ℕ) (vec : List FVal) :
    (validate_vector dim vec).1.length = dim := by
  rw [validate_vector_eq_map]
  simp [resize_vec_length]

theorem validate_vector_all_finite (dim : ℕ) (vec : List FVal) :
    (validate_vector dim vec).1.all isfinite = true := by
  rw [validate_vector_eq_map]
  simp only [List.all_eq_true]
  intro x hx
  rcases List.mem_map.mp hx with ⟨y, _, rfl⟩
  exact nan_to_num_finite y

/-! ## Lemmas about the argsort model -/

theorem sortIdx_perm (ds : List ℚ) : (sortIdx ds).Perm (List.range ds.length) :=
  List.perm_insertionSort _ _

theorem sortIdx_length (ds : List ℚ) : (sortIdx ds).length = ds.length := by
  simpa using (sortIdx_perm ds).length_eq

theorem mem_sortIdx (ds : List ℚ) {i : ℕ} (h : i ∈ sortIdx ds) : i < ds.length := by
  simpa using (sortIdx_perm ds).mem_iff.mp h

theorem sortIdx_sorted (ds : List ℚ) : (sortIdx ds).Sorted (idxLe ds) :=
  List.sorted_insertionSort _ _

/-! ## Frame property of query (shared helper) -/

theorem query_db_snd (μ : Type) [Inhabited μ] (s : SJPUState μ) (v : List FVal) (k : ℤ) :
    (query_db s v k).2 = s := by
  unfold query_db
  split
  · split
    · rfl
    · rfl
  · split
    · rfl
    · rfl

/-! ## Claim theorems -/

/-- C1 (counterexample): construction is NOT total.  When FAISS is
available and the index objects build fine but the training/calibration
call raises, the exception propagates out of `_initialize_database`: the
training call (source lines 64-68) sits after the try/except of lines
44-51, so nothing catches it. -/
theorem C1_cex_train_failure_raises :
    init_database ℕ ⟨true, false, true⟩ 100 10000 = Except.error "faiss train raised" := rfl

/-- C1 (amended): construction succeeds and yields a usable store in every
environment except the one where the training call itself raises: a
failure while building the index objects is caught, recorded as a
warning, and the store falls back to the exhaustive backend; FAISS being
unavailable likewise warns and falls back. -/
theorem C1_build_failure_caught (μ : Type) (env : InitEnv) (dim N : ℕ)
    (h : env.train_raises = true → env.faiss_available = false ∨ env.index_build_raises = true) :
    ∃ s ws, init_database μ env dim N = Except.ok (s, ws)
      ∧ (s.use_faiss = true → s.knowledge_db_faiss.trained = true)
      ∧ (env.faiss_available = true → env.index_build_raises = true →
          s.use_faiss = false ∧ Warning.faissInitError ∈ ws)
      ∧ s.metadata = [] ∧ s.knowledge_db = [] := by
  rcases env with ⟨fa, br, tr⟩
  cases fa <;> cases br <;> cases tr <;>
    first
      | exact ⟨_, _, rfl, by simp, by simp, rfl, rfl⟩
      | exact absurd (h rfl) (by simp)

/-- C1 witness: in the environment where index building raises, the store
still constructs, is on the fallback backend, and the warning is
recorded. -/
theorem C1_build_failure_caught_witness :
    ∃ s ws, init_database ℕ ⟨true, true, true⟩ 4 7 = Except.ok (s, ws)
      ∧ (s.use_faiss = true → s.knowledge_db_faiss.trained = true)
      ∧ ((⟨true, true, true⟩ : InitEnv).faiss_available = true →
          (⟨true, true, true⟩ : InitEnv).index_build_raises = true →
          s.use_faiss = false ∧ Warning.faissInitError ∈ ws)
      ∧ s.metadata = [] ∧ s.knowledge_db = [] :=
  C1_build_failure_caught ℕ ⟨true, true, true⟩ 4 7 (by decide)

/-- C4 (counterexample): the claim says every non-finite entry becomes
zero, but the source's `np.nan_to_num` maps +Inf to the largest finite
double, not to zero. -/
theorem C4_cex_infinity_not_zero :
    (validate_vector 1 [FVal.inf]).1 = [FVal.val FLOAT64_MAX]
      ∧ (validate_vector 1 [FVal.inf]).1 ≠ [FVal.val 0] := by
  constructor
  · decide
  · decide

/-- C4 (amended): `validate_vector` always returns a vector of exactly
length D with only finite entries, truncating or zero-padding to D with a
warning and repairing non-finite entries with a warning; the repair is
`np.nan_to_num`: NaN becomes 0 while +Inf / -Inf become the
largest-magnitude finite doubles. -/
theorem C4_validate_sanitizes (dim : ℕ) (vec : List FVal) :
    (validate_vector dim vec).1.length = dim
    ∧ (validate_vector dim vec).1.all isfinite = true
    ∧ (validate_vector dim vec).1 = (resize_vec dim vec).map nan_to_num
    ∧ nan_to_num FVal.nan = FVal.val 0
    ∧ nan_to_num FVal.inf = FVal.val FLOAT64_MAX
    ∧ nan_to_num FVal.ninf = FVal.val (-FLOAT64_MAX)
    ∧ (vec.length ≠ dim → Warning.resized vec.length dim ∈ (validate_vector dim vec).2)
    ∧ ((resize_vec dim vec).all isfinite = false →
        Warning.nonfinite ∈ (validate_vector dim vec).2) := by
  refine ⟨validate_vector_length dim vec, validate_vector_all_finite dim vec,
    validate_vector_eq_map dim vec, rfl, rfl, rfl, ?_, ?_⟩
  · intro h
    by_cases hfin : (resize_vec dim vec).all isfinite = true
    · simp [validate_vector, h, hfin]
    · simp [validate_vector, h, hfin]
  · intro h
    by_cases hl : vec.length = dim
    · rw [resize_vec_eq_self dim vec hl] at h
      simp [validate_vector, hl, h]
    · simp [validate_vector, hl, h]

/-- C4 witness: a vector with a NaN, a finite entry and an excess +Inf
against dimension 2. -/
theorem C4_validate_sanitizes_witness :
    (validate_vector 2 [FVal.nan, FVal.val 3, FVal.inf]).1.length = 2
    ∧ (validate_vector 2 [FVal.nan, FVal.val 3, FVal.inf]).1.all isfinite = true
    ∧ (validate_vector 2 [FVal.nan, FVal.val 3, FVal.inf]).1
        = (resize_vec 2 [FVal.nan, FVal.val 3, FVal.inf]).map nan_to_num
    ∧ nan_to_num FVal.nan = FVal.val 0
    ∧ nan_to_num FVal.inf = FVal.val FLOAT64_MAX
    ∧ nan_to_num FVal.ninf = FVal.val (-FLOAT64_MAX)
    ∧ ([FVal.nan, FVal.val 3, FVal.inf].length ≠ 2 →
        Warning.resized [FVal.nan, FVal.val 3, FVal.inf].length 2
          ∈ (validate_vector 2 [FVal.nan, FVal.val 3, FVal.inf]).2)
    ∧ ((resize_vec 2 [FVal.nan, FVal.val 3, FVal.inf]).all isfinite = false →
        Warning.nonfinite ∈ (validate_vector 2 [FVal.nan, FVal.val 3, FVal.inf]).2) :=
  C4_validate_sanitizes 2 [FVal.nan, FVal.val 3, FVal.inf]

/-- C8: querying a store of current size zero returns two empty sequences
regardless of k, on either backend. -/
theorem C8_empty_store_query (μ : Type) [Inhabited μ] (s : SJPUState μ) (v : List FVal) (k : ℤ)
    (h : (get_system_stats s).db_size = 0) :
    (query_db s v k).1 = ([], []) := by
  unfold get_system_stats at h
  unfold query_db
  cases hf : s.use_faiss with
  | true =>
    simp only [hf, if_true] at h ⊢
    simp [h]
  | false =>
    simp only [hf, if_false, Bool.false_eq_true] at h ⊢
    simp [h]

/-- C8 witness: an empty fallback store queried with k = 5. -/
theorem C8_empty_store_query_witness :
    (query_db
      ({ dim := 2, max_db_size := 4, use_faiss := false,
         knowledge_db_faiss := { trained := false, entries := [] },
         knowledge_db := [], vectors := [], metadata := [],
         add_times := 0, query_times := 0 } : SJPUState ℕ)
      [FVal.val 1, FVal.val 2] 5).1 = ([], []) :=
  C8_empty_store_query ℕ _ [FVal.val 1, FVal.val 2] 5 rfl

/-- C9: `query_db` leaves the whole store state unchanged — both returns
of the source (lines 231/234 and 237/240) precede the query-time
benchmark recording statements (lines 241-242), which therefore never
execute. -/
theorem C9_query_frame (μ : Type) [Inhabited μ] (s : SJPUState μ) (v : List FVal) (k : ℤ) :
    (query_db s v k).2 = s :=
  query_db_snd μ s v k


/-- C9 witness: a concrete fallback store is returned unchanged. -/
theorem C9_query_frame_witness :
    (query_db
      ({ dim := 1, max_db_size := 10, use_faiss := false,
         knowledge_db_faiss := { trained := false, entries := [] },
         knowledge_db := [[FVal.val 0], [FVal.val 3]], vectors := [],
         metadata := [10, 20], add_times := 0, query_times := 0 } : SJPUState ℕ)
      [FVal.val 1] 3).2
      = { dim := 1, max_db_size := 10, use_faiss := false,
          knowledge_db_faiss := { trained := false, entries := [] },
          knowledge_db := [[FVal.val 0], [FVal.val 3]], vectors := [],
          metadata := [10, 20], add_times := 0, query_times := 0 } :=
  C9_query_frame ℕ _ [FVal.val 1] 3

/-- An indexed-backend store of dimension 1 and capacity 1, exactly as
produced by a successful construction (trained, empty index). -/
def faissStore1 : SJPUState ℕ :=
  { dim := 1, max_db_size := 1, use_faiss := true,
    knowledge_db_faiss := { trained := true, entries := [] },
    knowledge_db := [], vectors := [], metadata := [],
    add_times := 0, query_times := 0 }

/-- An indexed-backend store of dimension 1 and capacity 2, exactly as
produced by a successful construction (trained, empty index). -/
def faissStore2 : SJPUState ℕ :=
  { dim := 1, max_db_size := 2, use_faiss := true,
    knowledge_db_faiss := { trained := true, entries := [] },
    knowledge_db := [], vectors := [], metadata := [],
    add_times := 0, query_times := 0 }

/-- C2 (code bug, indexed backend): inserting M = 2 > N = 1 vectors does
not leave the last N entries — the second insert evicts the oldest entry
and then raises while adding to the rebuilt index, because the rebuilt
`IndexIVFFlat` (source line 209) is never trained; the store is left with
no metadata and no vectors instead of the last 1 insert. -/
theorem C2_faiss_eviction_raises :
    ∃ e, (add_to_db faissStore1 [FVal.val 1] 1).bind
          (fun s => add_to_db s [FVal.val 2] 2) = Except.error e
      ∧ e.metadata = [] ∧ e.vectors = []
      ∧ (get_system_stats e).db_size = 0 :=
  ⟨_, rfl, rfl, rfl, rfl⟩

/-- C6 (code bug, indexed backend): after the third insert into a
capacity-2 indexed store raises mid-eviction, the surviving state has one
metadata record but an empty index: `metadata_count` and `db_size`
disagree. -/
theorem C6_metadata_size_divergence :
    ∃ e, (add_to_db faissStore2 [FVal.val 5] 1).bind
          (fun s => (add_to_db s [FVal.val 6] 2).bind
            (fun t => add_to_db t [FVal.val 7] 3)) = Except.error e
      ∧ (get_system_stats e).metadata_count = 1
      ∧ (get_system_stats e).db_size = 0
      ∧ (get_system_stats e).metadata_count ≠ (get_system_stats e).db_size :=
  ⟨_, rfl, rfl, rfl, by decide⟩

/-- C7 (code bug): when eviction occurs with retained raw vectors, the
source replaces the index by a fresh `IndexIVFFlat` without re-running
the training/calibration step (no `train` call between source lines 209
and 212), so the bulk re-insert of the retained vectors is rejected by
the untrained index: the error state still holds the retained raw vector
while the rebuilt index is untrained and empty. -/
theorem C7_rebuild_skips_calibration :
    ∃ e, (add_to_db faissStore2 [FVal.val 1] 1).bind
          (fun s => (add_to_db s [FVal.val 2] 2).bind
            (fun t => add_to_db t [FVal.val 3] 3)) = Except.error e
      ∧ e.vectors = [[FVal.val 2]]
      ∧ e.knowledge_db_faiss.trained = false
      ∧ e.knowledge_db_faiss.entries = [] :=
  ⟨_, rfl, rfl, rfl, rfl⟩

/-- C3: query clamps k to the current store size — with k at least the
current size, exactly current-size results come back (not k), on either
backend; `query_db` is total, so no error is raised for any k (including
k ≤ 0, where the fallback's Python slice and the clamped search both
simply shrink the result). -/
theorem C3_k_clamped (μ : Type) [Inhabited μ] (s : SJPUState μ) (v : List FVal) (k : ℤ)
    (hk : ((get_system_stats s).db_size : ℤ) ≤ k) :
    (query_db s v k).1.1.length = (get_system_stats s).db_size
      ∧ (query_db s v k).1.2.length = (get_system_stats s).db_size := by
  unfold get_system_stats at hk ⊢
  unfold query_db
  cases hf : s.use_faiss with
  | true =>
    simp only [hf, if_true] at hk ⊢
    by_cases h0 : s.knowledge_db_faiss.ntotal = 0
    · simp [h0]
    · have hne : ¬ s.knowledge_db_faiss.entries = [] := by
        intro h
        exact h0 (by simp [FaissIndex.ntotal, h])
      have hmin : k ⊓ (s.knowledge_db_faiss.entries.length : ℤ)
          = (s.knowledge_db_faiss.entries.length : ℤ) :=
        min_eq_right (by simpa [FaissIndex.ntotal] using hk)
      simp [h0, hne, FaissIndex.search, FaissIndex.ntotal, hmin, sortIdx_length]
  | false =>
    simp only [hf, Bool.false_eq_true, if_false] at hk ⊢
    by_cases h0 : s.knowledge_db.length = 0
    · simp [h0]
    · have hmin : min k (s.knowledge_db.length : ℤ) = (s.knowledge_db.length : ℤ) := by
        apply min_eq_right
        simpa using hk
      simp [h0, pySlice, hmin, sortIdx_length]

/-- C3 witness: a fallback store holding 2 vectors queried with k = 5
returns exactly 2 results. -/
theorem C3_k_clamped_witness :
    (query_db
      ({ dim := 1, max_db_size := 10, use_faiss := false,
         knowledge_db_faiss := { trained := false, entries := [] },
         knowledge_db := [[FVal.val 0], [FVal.val 3]], vectors := [],
         metadata := [10, 20], add_times := 0, query_times := 0 } : SJPUState ℕ)
      [FVal.val 1] 5).1.1.length
      = (get_system_stats
          ({ dim := 1, max_db_size := 10, use_faiss := false,
             knowledge_db_faiss := { trained := false, entries := [] },
             knowledge_db := [[FVal.val 0], [FVal.val 3]], vectors := [],
             metadata := [10, 20], add_times := 0, query_times := 0 } : SJPUState ℕ)).db_size
    ∧ (query_db
      ({ dim := 1, max_db_size := 10, use_faiss := false,
         knowledge_db_faiss := { trained := false, entries := [] },
         knowledge_db := [[FVal.val 0], [FVal.val 3]], vectors := [],
         metadata := [10, 20], add_times := 0, query_times := 0 } : SJPUState ℕ)
      [FVal.val 1] 5).1.2.length
      = (get_system_stats
          ({ dim := 1, max_db_size := 10, use_faiss := false,
             knowledge_db_faiss := { trained := false, entries := [] },
             knowledge_db := [[FVal.val 0], [FVal.val 3]], vectors := [],
             metadata := [10, 20], add_times := 0, query_times := 0 } : SJPUState ℕ)).db_size :=
  C3_k_clamped ℕ _ [FVal.val 1] 5 (by decide)

/-- C10: the empty input vector is accepted everywhere: `validate_vector`
zero-pads it to the all-zero vector of length D (with a resize warning
when D > 0), inserting it into a fallback store succeeds and stores that
zero vector, and querying with it returns without error, leaving the
state unchanged. -/
theorem C10_empty_vector_accepted (μ : Type) [Inhabited μ] (s : SJPUState μ) (m : μ) (k : ℤ)
    (hf : s.use_faiss = false)
    (hlen : s.metadata.length = s.knowledge_db.length)
    (hN : 0 < s.max_db_size) :
    (validate_vector s.dim []).1 = List.replicate s.dim (FVal.val 0)
    ∧ (0 < s.dim → Warning.resized 0 s.dim ∈ (validate_vector s.dim []).2)
    ∧ (∃ t, add_to_db s [] m = Except.ok t
        ∧ t.metadata.getLast? = some m
        ∧ t.knowledge_db.getLast? = some (List.replicate s.dim (FVal.val 0)))
    ∧ (query_db s [] k).2 = s := by
  have hres : resize_vec s.dim [] = List.replicate s.dim (FVal.val 0) := by
    simp [resize_vec]
  have hrepfin : (List.replicate s.dim (FVal.val 0)).all isfinite = true := by
    simp only [List.all_eq_true]
    intro x hx
    rw [List.eq_of_mem_replicate hx]
    rfl
  have hval : (validate_vector s.dim []).1 = List.replicate s.dim (FVal.val 0) := by
    rw [validate_vector_eq_map, hres, List.map_replicate]
    rfl
  refine ⟨hval, ?_, ?_, query_db_snd μ s [] k⟩
  · intro hd
    have h0 : ¬ ((0 : ℕ) = s.dim) := fun h => absurd h.symm hd.ne'
    have hfin2 : ∀ x ∈ List.replicate s.dim (FVal.val 0), isfinite x = true := by
      intro x hx
      rw [List.eq_of_mem_replicate hx]
      rfl
    simp [validate_vector, h0, hres, hfin2, isfinite]
  · unfold add_to_db
    simp only [hf, Bool.false_eq_true, if_false, hval]
    by_cases hcap : s.max_db_size ≤ s.knowledge_db.length
    · have hmne : s.metadata ≠ [] := by
        apply List.ne_nil_of_length_pos
        omega
      obtain ⟨a, t, hm⟩ := List.exists_cons_of_ne_nil hmne
      simp only [hcap, if_true, hm, pop0]
      refine ⟨_, rfl, ?_, ?_⟩
      · simp
      · split
        · simp
        · simp
    · simp only [hcap, if_false]
      refine ⟨_, rfl, ?_, ?_⟩
      · simp
      · split
        · simp
        · simp

/-- C10 witness: inserting and querying the empty vector on a concrete
fallback store of dimension 2. -/
theorem C10_empty_vector_accepted_witness :
    (validate_vector 2 []).1 = List.replicate 2 (FVal.val 0)
    ∧ (0 < 2 → Warning.resized 0 2 ∈ (validate_vector 2 []).2)
    ∧ (∃ t, add_to_db
        ({ dim := 2, max_db_size := 3, use_faiss := false,
           knowledge_db_faiss := { trained := false, entries := [] },
           knowledge_db := [[FVal.val 1, FVal.val 1]], vectors := [],
           metadata := [7], add_times := 0, query_times := 0 } : SJPUState ℕ) [] 9 = Except.ok t
        ∧ t.metadata.getLast? = some 9
        ∧ t.knowledge_db.getLast? = some (List.replicate 2 (FVal.val 0)))
    ∧ (query_db
        ({ dim := 2, max_db_size := 3, use_faiss := false,
           knowledge_db_faiss := { trained := false, entries := [] },
           knowledge_db := [[FVal.val 1, FVal.val 1]], vectors := [],
           metadata := [7], add_times := 0, query_times := 0 } : SJPUState ℕ) [] 4).2
      = { dim := 2, max_db_size := 3, use_faiss := false,
          knowledge_db_faiss := { trained := false, entries := [] },
          knowledge_db := [[FVal.val 1, FVal.val 1]], vectors := [],
          metadata := [7], add_times := 0, query_times := 0 } :=
  C10_empty_vector_accepted ℕ
    ({ dim := 2, max_db_size := 3, use_faiss := false,
       knowledge_db_faiss := { trained := false, entries := [] },
       knowledge_db := [[FVal.val 1, FVal.val 1]], vectors := [],
       metadata := [7], add_times := 0, query_times := 0 } : SJPUState ℕ)
    9 4 rfl rfl (by decide)

/-! ## Lemmas for the exact fallback search (C5) -/

theorem rowDist2_nonneg (row : List FVal) (q : List ℚ) : 0 ≤ rowDist2 row q := by
  apply List.sum_nonneg
  intro x hx
  rcases List.mem_map.mp hx with ⟨p, _, rfl⟩
  exact sq_nonneg _

theorem rowDist2_self (v : List FVal) : rowDist2 v (v.map ratOf) = 0 := by
  induction v with
  | nil => rfl
  | cons a t ih =>
    simp only [rowDist2, List.map_cons, List.zip_cons_cons, List.sum_cons, sub_self] at ih ⊢
    simpa using ih

theorem isfinite_exists_val {x : FVal} (h : isfinite x = true) : ∃ q, x = FVal.val q := by
  cases x with
  | val q => exact ⟨q, rfl⟩
  | nan => exact absurd h (by simp [isfinite])
  | inf => exact absurd h (by simp [isfinite])
  | ninf => exact absurd h (by simp [isfinite])

theorem eq_of_rowDist2_zero (row : List FVal) :
    ∀ (v : List FVal), row.length = v.length → row.all isfinite = true →
      v.all isfinite = true → rowDist2 row (v.map ratOf) = 0 → row = v := by
  induction row with
  | nil =>
    intro v hlen _ _ _
    cases v with
    | nil => rfl
    | cons b tv => simp at hlen
  | cons a t ih =>
    intro v hlen hrow hv h
    cases v with
    | nil => simp at hlen
    | cons b tv =>
      simp only [List.all_cons, Bool.and_eq_true] at hrow hv
      have hrest : rowDist2 t (tv.map ratOf)
          = (((t.zip (tv.map ratOf)).map (fun p => (ratOf p.1 - p.2) ^ 2)).sum) := rfl
      simp only [rowDist2, List.map_cons, List.zip_cons_cons, List.sum_cons] at h
      have h1 : (0 : ℚ) ≤ (ratOf a - ratOf b) ^ 2 := sq_nonneg _
      have h2 : (0 : ℚ) ≤ rowDist2 t (tv.map ratOf) := rowDist2_nonneg t _
      rw [hrest] at h2
      have hz1 : (ratOf a - ratOf b) ^ 2 = 0 := by linarith
      have hz2 : rowDist2 t (tv.map ratOf) = 0 := by
        rw [hrest]; linarith
      have hab : ratOf a = ratOf b := by
        have := sq_eq_zero_iff.mp hz1
        linarith [sub_eq_zero.mp this]
      obtain ⟨qa, rfl⟩ := isfinite_exists_val hrow.1
      obtain ⟨qb, rfl⟩ := isfinite_exists_val hv.1
      have hab2 : qa = qb := hab
      rw [hab2, ih tv (by simpa using hlen) hrow.2 hv.2 hz2]

theorem map_getD_range (ds : List ℚ) :
    (List.range ds.length).map (fun i => ds.getD i 0) = ds := by
  apply List.ext_getElem
  · simp
  · intro n h1 h2
    simp only [List.getElem_map, List.getElem_range]
    exact List.getD_eq_getElem ds 0 h2

theorem idxLe_getD_le {ds : List ℚ} {i j : ℕ} (h : idxLe ds i j) :
    ds.getD i 0 ≤ ds.getD j 0 := by
  rcases h with h | ⟨h, _⟩
  · exact le_of_lt h
  · exact le_of_eq h

theorem sortIdx_map_sorted (ds : List ℚ) :
    ((sortIdx ds).map (fun i => ds.getD i 0)).Sorted (fun a b : ℚ => a ≤ b) :=
  List.Pairwise.map _ (fun _ _ h => idxLe_getD_le h) (sortIdx_sorted ds)

theorem sortIdx_map_perm (ds : List ℚ) :
    ((sortIdx ds).map (fun i => ds.getD i 0)).Perm ds := by
  have h := (sortIdx_perm ds).map (fun i => ds.getD i 0)
  rwa [map_getD_range ds] at h

theorem sortIdx_map_eq_insertionSort (ds : List ℚ) :
    (sortIdx ds).map (fun i => ds.getD i 0)
      = List.insertionSort (fun a b : ℚ => a ≤ b) ds := by
  refine List.eq_of_perm_of_sorted ?_ (sortIdx_map_sorted ds)
    (List.sorted_insertionSort _ ds)
  exact (sortIdx_map_perm ds).trans (List.perm_insertionSort _ ds).symm

theorem sorted_head_le {l : List ℚ} (hs : l.Sorted (fun a b : ℚ => a ≤ b)) {x : ℚ}
    (hx : x ∈ l) (hl : l ≠ []) : l.getD 0 0 ≤ x := by
  cases l with
  | nil => exact absurd rfl hl
  | cons a t =>
    rcases List.mem_cons.mp hx with rfl | hx
    · simp
    · simpa using List.rel_of_sorted_cons hs x hx

theorem getD_zero_take {l : List ℚ} {n : ℕ} (hn : 1 ≤ n) :
    (l.take n).getD 0 0 = l.getD 0 0 := by
  cases l with
  | nil => simp
  | cons a t =>
    cases n with
    | zero => omega
    | succ m => simp

theorem getD_zero_mem {l : List ℚ} (h : l ≠ []) : l.getD 0 0 ∈ l := by
  cases l with
  | nil => exact absurd rfl h
  | cons a t => simp

/-- The fallback branch of `query_db`, written out: the Python slice of
the argsorted distances, mapped over metadata and distances. -/
theorem query_db_fallback_eq (μ : Type) [Inhabited μ] (s : SJPUState μ) (v : List FVal) (k : ℤ)
    (hf : s.use_faiss = false) (hne : s.knowledge_db ≠ [])
    (hv : (validate_vector s.dim v).1 = v)
    (hk1 : 0 ≤ k) (hk2 : k ≤ (s.knowledge_db.length : ℤ)) :
    query_db s v k
      = ((((sortIdx (s.knowledge_db.map (fun row => rowDist2 row (v.map ratOf)))).take k.toNat).map
            (fun i => s.metadata.getD i default),
          ((sortIdx (s.knowledge_db.map (fun row => rowDist2 row (v.map ratOf)))).take k.toNat).map
            (fun i => (s.knowledge_db.map (fun row => rowDist2 row (v.map ratOf))).getD i 0)),
         s) := by
  have hn0 : ¬ (s.knowledge_db.length = 0) := fun h => hne (List.eq_nil_of_length_eq_zero h)
  have hmin : min k ((s.knowledge_db.map (fun row => rowDist2 row (v.map ratOf))).length : ℤ)
      = k := by
    apply min_eq_left
    simpa using hk2
  unfold query_db
  simp only [hv, hf, Bool.false_eq_true, if_false]
  rw [if_neg hn0]
  simp only [pySlice, hmin, if_pos hk1]

/-- C5: on a non-empty fallback-backend store with well-formed rows, for
1 ≤ k ≤ size, `query_db` returns exactly k parallel results; the distance
list is the first k entries of the ascending sort of the distances from
the sanitized query to every stored row — i.e. the k nearest stored
vectors — hence in non-decreasing order; each result pairs the metadata
at some stored index with that row's distance; and when the query vector
equals a stored row, the first result has distance 0 and carries the
metadata of an index whose stored vector is exactly the query.
(Distances are squared Euclidean, see the header note: the source's
square root is strictly monotone, so order and zero-ness agree.) -/
theorem C5_fallback_query_exact (μ : Type) [Inhabited μ] (s : SJPUState μ) (v : List FVal) (k : ℤ)
    (hf : s.use_faiss = false)
    (hrows : ∀ row ∈ s.knowledge_db, row.length = s.dim ∧ row.all isfinite = true)
    (hne : s.knowledge_db ≠ [])
    (hv : v.length = s.dim) (hvf : v.all isfinite = true)
    (hk1 : 1 ≤ k) (hk2 : k ≤ (s.knowledge_db.length : ℤ)) :
    (query_db s v k).1.1.length = k.toNat
    ∧ (query_db s v k).1.2.length = k.toNat
    ∧ (query_db s v k).1.2
        = (List.insertionSort (fun a b : ℚ => a ≤ b)
            (s.knowledge_db.map (fun row => rowDist2 row (v.map ratOf)))).take k.toNat
    ∧ (query_db s v k).1.2.Sorted (fun a b : ℚ => a ≤ b)
    ∧ (∀ j, j < k.toNat → ∃ i, i < s.knowledge_db.length
        ∧ (query_db s v k).1.1.getD j default = s.metadata.getD i default
        ∧ (query_db s v k).1.2.getD j 0
            = rowDist2 (s.knowledge_db.getD i []) (v.map ratOf))
    ∧ ((∃ i, i < s.knowledge_db.length ∧ s.knowledge_db.getD i [] = v) →
        (query_db s v k).1.2.getD 0 0 = 0
        ∧ ∃ i, i < s.knowledge_db.length ∧ s.knowledge_db.getD i [] = v
            ∧ (query_db s v k).1.1.getD 0 default = s.metadata.getD i default) := by
  have hval1 : (validate_vector s.dim v).1 = v := by
    rw [validate_vector_id s.dim v hv hvf]
  have hquery := query_db_fallback_eq μ s v k hf hne hval1 (by omega) hk2
  rw [hquery]
  dsimp only
  set ds := s.knowledge_db.map (fun row => rowDist2 row (v.map ratOf)) with hds
  set idx := (sortIdx ds).take k.toNat with hidx
  have hn1 : 1 ≤ s.knowledge_db.length := List.length_pos.mpr hne
  have hdslen : ds.length = s.knowledge_db.length := by
    rw [hds, List.length_map]
  have hkn1 : 1 ≤ k.toNat := by omega
  have hknle : k.toNat ≤ s.knowledge_db.length := by omega
  have hsilen : (sortIdx ds).length = ds.length := sortIdx_length ds
  have hidxlen : idx.length = k.toNat := by
    rw [hidx, List.length_take, hsilen, hdslen]
    exact min_eq_left hknle
  have hsnd_eq : idx.map (fun i => ds.getD i 0)
      = (List.insertionSort (fun a b : ℚ => a ≤ b) ds).take k.toNat := by
    rw [hidx, List.map_take, sortIdx_map_eq_insertionSort ds]
  refine ⟨?_, ?_, hsnd_eq, ?_, ?_, ?_⟩
  · rw [List.length_map, hidxlen]
  · rw [List.length_map, hidxlen]
  · rw [hsnd_eq]
    exact List.Pairwise.sublist (List.take_sublist _ _) (List.sorted_insertionSort _ ds)
  · intro j hj
    have hj2 : j < idx.length := by rw [hidxlen]; exact hj
    have hj3 : j < (sortIdx ds).length := by
      rw [hsilen, hdslen]; omega
    have hidxj : idx[j] = (sortIdx ds)[j] := List.getElem_take _
    have hmemj : idx[j] ∈ sortIdx ds := by
      rw [hidxj]
      exact List.getElem_mem hj3
    have hilt : idx[j] < s.knowledge_db.length := by
      have := mem_sortIdx ds hmemj
      rwa [hdslen] at this
    have hiltds : idx[j] < ds.length := by rw [hdslen]; exact hilt
    refine ⟨idx[j], hilt, ?_, ?_⟩
    · have hjf : j < (idx.map (fun i => s.metadata.getD i default)).length := by
        rw [List.length_map]; exact hj2
      rw [List.getD_eq_getElem _ _ hjf, List.getElem_map]
    · have hjs : j < (idx.map (fun i => ds.getD i 0)).length := by
        rw [List.length_map]; exact hj2
      rw [List.getD_eq_getElem _ _ hjs, List.getElem_map,
        List.getD_eq_getElem _ _ hiltds, List.getD_eq_getElem _ _ hilt]
      simp only [hds, List.getElem_map]
  · rintro ⟨i0, hi0, heq⟩
    rw [List.getD_eq_getElem _ _ hi0] at heq
    have hi0ds : i0 < ds.length := by rw [hdslen]; exact hi0
    have h0mem : (0 : ℚ) ∈ ds := by
      have h1 : ds[i0] = rowDist2 (s.knowledge_db[i0]) (v.map ratOf) := by
        simp only [hds, List.getElem_map]
      have h2 : ds[i0] = 0 := by
        rw [h1, heq, rowDist2_self]
      exact h2 ▸ List.getElem_mem hi0ds
    have hall : ∀ x ∈ ds, 0 ≤ x := by
      intro x hx
      rw [hds] at hx
      rcases List.mem_map.mp hx with ⟨row, _, rfl⟩
      exact rowDist2_nonneg row _
    have hLne : (sortIdx ds).map (fun i => ds.getD i 0) ≠ [] := by
      apply List.ne_nil_of_length_pos
      rw [List.length_map, hsilen, hdslen]
      omega
    have hhead_le : ((sortIdx ds).map (fun i => ds.getD i 0)).getD 0 0 ≤ 0 :=
      sorted_head_le (sortIdx_map_sorted ds) ((sortIdx_map_perm ds).mem_iff.mpr h0mem) hLne
    have hhead_ge : 0 ≤ ((sortIdx ds).map (fun i => ds.getD i 0)).getD 0 0 :=
      hall _ ((sortIdx_map_perm ds).mem_iff.mp (getD_zero_mem hLne))
    have hhead0 : ((sortIdx ds).map (fun i => ds.getD i 0)).getD 0 0 = 0 :=
      le_antisymm hhead_le hhead_ge
    have hsnd0 : (idx.map (fun i => ds.getD i 0)).getD 0 0 = 0 := by
      rw [hidx, List.map_take, getD_zero_take hkn1, hhead0]
    refine ⟨hsnd0, ?_⟩
    have h0lt : 0 < (sortIdx ds).length := by
      rw [hsilen, hdslen]; omega
    have hi1mem : (sortIdx ds)[0] ∈ sortIdx ds := List.getElem_mem h0lt
    have hi1lt : (sortIdx ds)[0] < s.knowledge_db.length := by
      have := mem_sortIdx ds hi1mem
      rwa [hdslen] at this
    have hi1ltds : (sortIdx ds)[0] < ds.length := by rw [hdslen]; exact hi1lt
    have hL0 : ((sortIdx ds).map (fun i => ds.getD i 0)).getD 0 0
        = ds.getD ((sortIdx ds)[0]) 0 := by
      have h0lt2 : 0 < ((sortIdx ds).map (fun i => ds.getD i 0)).length := by
        rw [List.length_map]; exact h0lt
      rw [List.getD_eq_getElem _ _ h0lt2, List.getElem_map]
    have hds_i1 : ds.getD ((sortIdx ds)[0]) 0 = 0 := by
      rw [← hL0, hhead0]
    have hds_i1g : ds[(sortIdx ds)[0]] = 0 := by
      rw [← List.getD_eq_getElem _ (0 : ℚ) hi1ltds, hds_i1]
    have hrow_eq : s.knowledge_db[(sortIdx ds)[0]] = v := by
      apply eq_of_rowDist2_zero
      · rw [(hrows _ (List.getElem_mem hi1lt)).1, hv]
      · exact (hrows _ (List.getElem_mem hi1lt)).2
      · exact hvf
      · have h3 : ds[(sortIdx ds)[0]] = rowDist2 (s.knowledge_db[(sortIdx ds)[0]]) (v.map ratOf) := by
          simp only [hds, List.getElem_map]
        rw [← h3, hds_i1g]
    refine ⟨(sortIdx ds)[0], hi1lt, ?_, ?_⟩
    · rw [List.getD_eq_getElem _ _ hi1lt]
      exact hrow_eq
    · have h0f : 0 < (idx.map (fun i => s.metadata.getD i default)).length := by
        rw [List.length_map, hidxlen]
        omega
      rw [List.getD_eq_getElem _ _ h0f, List.getElem_map]
      have hidx0 : idx[0] = (sortIdx ds)[0] := List.getElem_take _
      rw [hidx0]

/-- A concrete 2-row fallback store for the exact-search witness. -/
def c5Store : SJPUState ℕ :=
  { dim := 1, max_db_size := 10, use_faiss := false,
    knowledge_db_faiss := { trained := false, entries := [] },
    knowledge_db := [[FVal.val 3], [FVal.val 0]], vectors := [],
    metadata := [10, 20], add_times := 0, query_times := 0 }

/-- C5 witness: querying the store holding rows [3] and [0] with the
vector [0] and k = 1. -/
theorem C5_fallback_query_exact_witness :
    (query_db c5Store [FVal.val 0] 1).1.1.length = (1 : ℤ).toNat
    ∧ (query_db c5Store [FVal.val 0] 1).1.2.length = (1 : ℤ).toNat
    ∧ (query_db c5Store [FVal.val 0] 1).1.2
        = (List.insertionSort (fun a b : ℚ => a ≤ b)
            (c5Store.knowledge_db.map
              (fun row => rowDist2 row ([FVal.val 0].map ratOf)))).take (1 : ℤ).toNat
    ∧ (query_db c5Store [FVal.val 0] 1).1.2.Sorted (fun a b : ℚ => a ≤ b)
    ∧ (∀ j, j < (1 : ℤ).toNat → ∃ i, i < c5Store.knowledge_db.length
        ∧ (query_db c5Store [FVal.val 0] 1).1.1.getD j default
            = c5Store.metadata.getD i default
        ∧ (query_db c5Store [FVal.val 0] 1).1.2.getD j 0
            = rowDist2 (c5Store.knowledge_db.getD i []) ([FVal.val 0].map ratOf))
    ∧ ((∃ i, i < c5Store.knowledge_db.length
          ∧ c5Store.knowledge_db.getD i [] = [FVal.val 0]) →
        (query_db c5Store [FVal.val 0] 1).1.2.getD 0 0 = 0
        ∧ ∃ i, i < c5Store.knowledge_db.length
            ∧ c5Store.knowledge_db.getD i [] = [FVal.val 0]
            ∧ (query_db c5Store [FVal.val 0] 1).1.1.getD 0 default
                = c5Store.metadata.getD i default) :=
  C5_fallback_query_exact ℕ c5Store [FVal.val 0] 1 rfl (by decide) (by decide)
    (by decide) (by decide) (by decide) (by decide)

/-- Supporting theorem: one fallback insert never fails, keeps the size
bounded by the capacity, appends when below capacity, and on a full store
drops exactly the oldest row/metadata and appends the new one (the
oldest-evicted, last-N-retained behavior of the fallback branch). -/
theorem fallback_add_step (μ : Type) (s : SJPUState μ) (vec : List FVal) (m : μ)
    (hf : s.use_faiss = false) (hd : 0 < s.dim) (hN : 1 ≤ s.max_db_size)
    (hlen : s.metadata.length = s.knowledge_db.length)
    (hcap : s.knowledge_db.length ≤ s.max_db_size) :
    ∃ t, add_to_db s vec m = Except.ok t
      ∧ t.use_faiss = false ∧ t.dim = s.dim ∧ t.max_db_size = s.max_db_size
      ∧ t.knowledge_db.length ≤ s.max_db_size
      ∧ t.metadata.length = t.knowledge_db.length
      ∧ (s.knowledge_db.length < s.max_db_size →
          t.knowledge_db = s.knowledge_db ++ [(validate_vector s.dim vec).1]
          ∧ t.metadata = s.metadata ++ [m])
      ∧ (s.knowledge_db.length = s.max_db_size →
          t.knowledge_db = s.knowledge_db.tail ++ [(validate_vector s.dim vec).1]
          ∧ t.metadata = s.metadata.tail ++ [m]) := by
  unfold add_to_db
  simp only [hf, Bool.false_eq_true, if_false]
  by_cases hful : s.max_db_size ≤ s.knowledge_db.length
  · have hfull : s.knowledge_db.length = s.max_db_size := le_antisymm hcap hful
    have hmne : s.metadata ≠ [] := by
      apply List.ne_nil_of_length_pos
      omega
    obtain ⟨a, mt, hm⟩ := List.exists_cons_of_ne_nil hmne
    simp only [hful, if_true, hm, pop0]
    refine ⟨_, rfl, rfl, rfl, rfl, ?_, ?_, ?_, ?_⟩
    · split
      · rename_i hcond
        simp only [List.length_append, List.length_tail, List.length_singleton]
        omega
      · rename_i hcond
        simp only [List.length_singleton]
        omega
    · have hmt : mt.length + 1 = s.knowledge_db.length := by
        have := hlen
        rw [hm] at this
        simpa using this
      split
      · rename_i hcond
        simp only [List.length_append, List.length_tail, List.length_singleton]
        omega
      · rename_i hcond
        rcases Nat.mul_eq_zero.mp (by omega : s.knowledge_db.tail.length * s.dim = 0) with
          h0 | h0
        · simp only [List.length_append, List.length_singleton]
          rw [List.length_tail] at h0
          omega
        · omega
    · intro hlt
      omega
    · intro _
      constructor
      · split
        · rfl
        · rename_i hcond
          rcases Nat.mul_eq_zero.mp (by omega : s.knowledge_db.tail.length * s.dim = 0) with
            h0 | h0
          · have : s.knowledge_db.tail = [] := List.eq_nil_of_length_eq_zero (by
              rw [List.length_tail] at h0 ⊢
              omega)
            rw [this]
            rfl
          · omega
      · rfl
  · have hlt : s.knowledge_db.length < s.max_db_size := by omega
    simp only [hful, if_false]
    refine ⟨_, rfl, rfl, rfl, rfl, ?_, ?_, ?_, ?_⟩
    · split
      · simp only [List.length_append, List.length_singleton]
        omega
      · simp only [List.length_singleton]
        omega
    · split
      · simp only [List.length_append, List.length_singleton]
        omega
      · rename_i hcond
        rcases Nat.mul_eq_zero.mp (by omega : s.knowledge_db.length * s.dim = 0) with h0 | h0
        · simp only [List.length_append, List.length_singleton]
          omega
        · omega
    · intro _
      constructor
      · split
        · rfl
        · rename_i hcond
          rcases Nat.mul_eq_zero.mp (by omega : s.knowledge_db.length * s.dim = 0) with h0 | h0
          · have : s.knowledge_db = [] := List.eq_nil_of_length_eq_zero h0
            rw [this]
            rfl
          · omega
      · rfl
    · intro heq
      omega

/-- Run a sequence of inserts in order; stops at the first raising
insert, carrying its partial state. -/
def run_adds (s : SJPUState μ) : List (List FVal × μ) → Except (SJPUState μ) (SJPUState μ)
  | [] => Except.ok s
  | p :: ps =>
    match add_to_db s p.1 p.2 with
    | Except.error e => Except.error e
    | Except.ok t => run_adds t ps

/-- The state produced by a fallback-mode construction: empty store,
exhaustive backend. -/
def emptyFallbackStore (μ : Type) (dim N : ℕ) : SJPUState μ :=
  { dim := dim, max_db_size := N, use_faiss := false,
    knowledge_db_faiss := { trained := false, entries := [] },
    knowledge_db := [], vectors := [], metadata := [],
    add_times := 0, query_times := 0 }

/-- Supporting theorem (generalized invariant): running fallback inserts
from a state holding the last-N suffix of already-inserted data keeps
holding the last-N suffix of all data. -/
theorem run_adds_fallback (μ : Type) (l : List (List FVal × μ)) :
    ∀ (s : SJPUState μ) (A : List (List FVal)) (B : List μ),
      s.use_faiss = false → 0 < s.dim → 1 ≤ s.max_db_size →
      (∀ p ∈ l, (p.1 : List FVal).length = s.dim ∧ p.1.all isfinite = true) →
      s.knowledge_db = A.drop (A.length - s.max_db_size) →
      s.metadata = B.drop (B.length - s.max_db_size) →
      A.length = B.length →
      ∃ t, run_adds s l = Except.ok t
        ∧ t.use_faiss = false ∧ t.dim = s.dim ∧ t.max_db_size = s.max_db_size
        ∧ t.knowledge_db = (A ++ l.map Prod.fst).drop ((A.length + l.length) - s.max_db_size)
        ∧ t.metadata = (B ++ l.map Prod.snd).drop ((B.length + l.length) - s.max_db_size) := by
  induction l with
  | nil =>
    intro s A B hf _ _ _ hA hB _
    exact ⟨s, rfl, hf, rfl, rfl, by simpa using hA, by simpa using hB⟩
  | cons p ps ih =>
    intro s A B hf hd hN hwf hA hB hAB
    have hwf1 := hwf p (List.mem_cons_self p ps)
    have hlen : s.metadata.length = s.knowledge_db.length := by
      rw [hA, hB, List.length_drop, List.length_drop, hAB]
    have hcap : s.knowledge_db.length ≤ s.max_db_size := by
      rw [hA, List.length_drop]
      omega
    obtain ⟨t, hstep, htf, htd, htN, htcap, htlen, hbelow, hfull⟩ :=
      fallback_add_step μ s p.1 p.2 hf hd hN hlen hcap
    have hvalid : (validate_vector s.dim p.1).1 = p.1 := by
      rw [validate_vector_id s.dim p.1 hwf1.1 hwf1.2]
    have hwf2 : ∀ q ∈ ps, (q.1 : List FVal).length = t.dim ∧ q.1.all isfinite = true := by
      intro q hq
      rw [htd]
      exact hwf q (List.mem_cons_of_mem p hq)
    have hdbt : t.knowledge_db = (A ++ [p.1]).drop ((A.length + 1) - s.max_db_size)
        ∧ t.metadata = (B ++ [p.2]).drop ((B.length + 1) - s.max_db_size) := by
      by_cases hsz : A.length < s.max_db_size
      · have hlt : s.knowledge_db.length < s.max_db_size := by
          rw [hA, List.length_drop]
          omega
        obtain ⟨h1, h2⟩ := hbelow hlt
        rw [hvalid] at h1
        constructor
        · rw [h1, hA]
          have hz1 : A.length - s.max_db_size = 0 := by omega
          have hz2 : A.length + 1 - s.max_db_size = 0 := by omega
          rw [hz1, hz2, List.drop_zero, List.drop_zero]
        · rw [h2, hB]
          have hz1 : B.length - s.max_db_size = 0 := by omega
          have hz2 : B.length + 1 - s.max_db_size = 0 := by omega
          rw [hz1, hz2, List.drop_zero, List.drop_zero]
      · have hge : s.max_db_size ≤ A.length := by omega
        have heqf : s.knowledge_db.length = s.max_db_size := by
          rw [hA, List.length_drop]
          omega
        obtain ⟨h1, h2⟩ := hfull heqf
        rw [hvalid] at h1
        constructor
        · rw [h1, hA, List.tail_drop]
          rw [List.drop_append_of_le_length
            (by omega : A.length + 1 - s.max_db_size ≤ A.length)]
          have harith : A.length - s.max_db_size + 1 = A.length + 1 - s.max_db_size := by
            omega
          rw [harith]
        · rw [h2, hB, List.tail_drop]
          rw [List.drop_append_of_le_length
            (by omega : B.length + 1 - s.max_db_size ≤ B.length)]
          have harith : B.length - s.max_db_size + 1 = B.length + 1 - s.max_db_size := by
            omega
          rw [harith]
    have hA2 : t.knowledge_db = (A ++ [p.1]).drop ((A ++ [p.1]).length - t.max_db_size) := by
      rw [hdbt.1, htN, List.length_append, List.length_singleton]
    have hB2 : t.metadata = (B ++ [p.2]).drop ((B ++ [p.2]).length - t.max_db_size) := by
      rw [hdbt.2, htN, List.length_append, List.length_singleton]
    obtain ⟨u, hrun, huf, hud, huN, hudb, humeta⟩ :=
      ih t (A ++ [p.1]) (B ++ [p.2]) htf (by rw [htd]; exact hd) (by rw [htN]; exact hN)
        hwf2 hA2 hB2 (by simp [hAB])
    refine ⟨u, ?_, huf, by rw [hud, htd], by rw [huN, htN], ?_, ?_⟩
    · simp only [run_adds, hstep]
      exact hrun
    · rw [hudb, htN]
      have harith : (A ++ [p.1]).length + ps.length - s.max_db_size
          = A.length + (p :: ps).length - s.max_db_size := by
        have l1 : (A ++ [p.1]).length = A.length + 1 := by simp
        have l2 : (p :: ps).length = ps.length + 1 := rfl
        omega
      rw [harith, List.append_assoc]
      simp only [List.singleton_append, List.map_cons]
    · rw [humeta, htN]
      have harith : (B ++ [p.2]).length + ps.length - s.max_db_size
          = B.length + (p :: ps).length - s.max_db_size := by
        have l1 : (B ++ [p.2]).length = B.length + 1 := by simp
        have l2 : (p :: ps).length = ps.length + 1 := rfl
        omega
      rw [harith, List.append_assoc]
      simp only [List.singleton_append, List.map_cons]

/-- Supporting theorem: from an empty fallback store of capacity N ≥ 1,
any sequence of well-formed inserts succeeds and retains exactly the last
N inserted vectors and metadata, in insertion order. -/
theorem fallback_retains_last_N (μ : Type) (dim N : ℕ) (hd : 0 < dim) (hN : 1 ≤ N)
    (l : List (List FVal × μ))
    (hwf : ∀ p ∈ l, (p.1 : List FVal).length = dim ∧ p.1.all isfinite = true) :
    ∃ t, run_adds (emptyFallbackStore μ dim N) l = Except.ok t
      ∧ t.knowledge_db = (l.map Prod.fst).drop (l.length - N)
      ∧ t.metadata = (l.map Prod.snd).drop (l.length - N)
      ∧ t.knowledge_db.length ≤ N := by
  obtain ⟨t, hrun, _, _, htN, hdb, hmeta⟩ :=
    run_adds_fallback μ l (emptyFallbackStore μ dim N) [] [] rfl hd hN hwf (by simp [emptyFallbackStore])
      (by simp [emptyFallbackStore]) rfl
  refine ⟨t, hrun, by simpa using hdb, by simpa using hmeta, ?_⟩
  have : t.knowledge_db.length = (l.map Prod.fst).length - (l.length - N) := by
    rw [(by simpa using hdb : t.knowledge_db = (l.map Prod.fst).drop (l.length - N)),
      List.length_drop]
  rw [this, List.length_map]
  omega
